import Mathlib

/-!
Verification of the bounded, persisted diary journal implemented in
`src/adapter/forum_memory.py` (`MemoryItem`, `ForumMemory`).

The Python module is shallowly embedded below:
  * JSON values produced by `json.load` are modelled by `JValue`;
    dictionaries are association lists queried by `dictGet`.
  * `datetime` values are modelled by `DateTime` (the fields Python's
    `datetime` stores, at microsecond precision).  `isoformat` and
    `fromisoformat` model the two library calls the module performs;
    `fromisoformat` is modelled on the grammar of strings that
    `isoformat` itself emits (which is what the store writes to disk),
    including Python's field-range validation.
  * The journal state is `ForumMemory` (fields `max_items`, `memories`,
    mirroring `_max_items`, `_memories`); the backing file as observed
    by `_load` is a `FileState` (absent, unreadable/corrupt, or a parsed
    JSON value).  Every Python `except`-swallowed failure is modelled by
    `Option`/explicit reset, so each operation is a total Lean function.
  * Python list slicing used by the module (`[::-1]`, `[:limit]`,
    `[-max_items:]`) is modelled by `List.reverse`, `pySliceTo`,
    `pySliceFrom` with Python's negative-index semantics.
-/

/-- JSON-like values, the results of `json.load` seen by `_load` and the
field values stored in serialized records. -/
inductive JValue where
  | str (s : String)
  | num (n : Int)
  | bool (b : Bool)
  | null
  | arr (elems : List JValue)
  | dict (fields : List (String × JValue))

/-- Python dictionary lookup (`data[k]` / `data.get(k)`), on the
association-list model of a JSON object: first binding wins. -/
def dictGet : List (String × JValue) → String → Option JValue
  | [], _ => none
  | (k, v) :: rest, key => if k = key then some v else dictGet rest key

/-- Model of Python `datetime`: the stored calendar fields, at microsecond
precision (exactly the precision of `isoformat`). -/
structure DateTime where
  year : Nat
  month : Nat
  day : Nat
  hour : Nat
  minute : Nat
  second : Nat
  microsecond : Nat
deriving DecidableEq

/-- Leap-year rule used by Python's `datetime` calendar validation. -/
def isLeap (y : Nat) : Bool :=
  y % 4 = 0 && (y % 100 != 0 || y % 400 = 0)

/-- Number of days in a month, as validated by `datetime.__new__`. -/
def daysInMonth (y m : Nat) : Nat :=
  if m = 2 then (if isLeap y then 29 else 28)
  else if m = 4 || m = 6 || m = 9 || m = 11 then 30
  else 31

/-- Constructing a `datetime` from parsed numeric fields: Python validates
every field range (`MINYEAR..MAXYEAR`, calendar-valid day, etc.) and raises
on violation, modelled by `none`. -/
def mkValid (y mo dy hr mi se us : Nat) : Option DateTime :=
  if 1 ≤ y ∧ y ≤ 9999 ∧ 1 ≤ mo ∧ mo ≤ 12 ∧ 1 ≤ dy ∧ dy ≤ daysInMonth y mo ∧
     hr ≤ 23 ∧ mi ≤ 59 ∧ se ≤ 59 ∧ us ≤ 999999 then
    some ⟨y, mo, dy, hr, mi, se, us⟩
  else none

/-- Validity of a `DateTime`: exactly the states Python's `datetime` can
hold, phrased as a fixed point of `mkValid`. -/
def DateTime.Valid (t : DateTime) : Prop :=
  mkValid t.year t.month t.day t.hour t.minute t.second t.microsecond = some t

instance (t : DateTime) : Decidable t.Valid := by
  unfold DateTime.Valid; infer_instance

/-- Numeric value of a decimal digit character. -/
def dval (c : Char) : Nat := c.toNat - 48

/-- Fixed-width zero-padded decimal rendering, two digits (`%02d`). -/
def pad2 (n : Nat) : List Char :=
  [Nat.digitChar (n / 10 % 10), Nat.digitChar (n % 10)]

/-- Fixed-width zero-padded decimal rendering, four digits (`%04d`). -/
def pad4 (n : Nat) : List Char :=
  [Nat.digitChar (n / 1000 % 10), Nat.digitChar (n / 100 % 10),
   Nat.digitChar (n / 10 % 10), Nat.digitChar (n % 10)]

/-- Fixed-width zero-padded decimal rendering, six digits (`%06d`). -/
def pad6 (n : Nat) : List Char :=
  [Nat.digitChar (n / 100000 % 10), Nat.digitChar (n / 10000 % 10),
   Nat.digitChar (n / 1000 % 10), Nat.digitChar (n / 100 % 10),
   Nat.digitChar (n / 10 % 10), Nat.digitChar (n % 10)]

/-- Character list of `datetime.isoformat()`:
`YYYY-MM-DDTHH:MM:SS` plus `.ffffff` exactly when the microsecond field is
non-zero (Python omits the fraction when it is zero). -/
def isoChars (t : DateTime) : List Char :=
  pad4 t.year ++ '-' :: pad2 t.month ++ '-' :: pad2 t.day ++
  'T' :: pad2 t.hour ++ ':' :: pad2 t.minute ++ ':' :: pad2 t.second ++
  (if t.microsecond = 0 then [] else '.' :: pad6 t.microsecond)

/-- Model of `datetime.isoformat()`. -/
def isoformat (t : DateTime) : String := String.mk (isoChars t)

/-- Parser for the timestamp strings the store itself writes (the
`isoformat` grammar above), with Python's range validation; any other
shape is a parse failure (`none`). -/
def parseChars : List Char → Option DateTime
  | c1 :: c2 :: c3 :: c4 :: '-' :: c5 :: c6 :: '-' :: c7 :: c8 ::
    'T' :: c9 :: c10 :: ':' :: c11 :: c12 :: ':' :: c13 :: c14 :: rest =>
    if c1.isDigit && c2.isDigit && c3.isDigit && c4.isDigit &&
       c5.isDigit && c6.isDigit && c7.isDigit && c8.isDigit &&
       c9.isDigit && c10.isDigit && c11.isDigit && c12.isDigit &&
       c13.isDigit && c14.isDigit then
      let y := ((dval c1 * 10 + dval c2) * 10 + dval c3) * 10 + dval c4
      let mo := dval c5 * 10 + dval c6
      let dy := dval c7 * 10 + dval c8
      let hr := dval c9 * 10 + dval c10
      let mi := dval c11 * 10 + dval c12
      let se := dval c13 * 10 + dval c14
      match rest with
      | [] => mkValid y mo dy hr mi se 0
      | '.' :: u1 :: u2 :: u3 :: u4 :: u5 :: u6 :: [] =>
        if u1.isDigit && u2.isDigit && u3.isDigit &&
           u4.isDigit && u5.isDigit && u6.isDigit then
          mkValid y mo dy hr mi se
            (((((dval u1 * 10 + dval u2) * 10 + dval u3) * 10 + dval u4) * 10
              + dval u5) * 10 + dval u6)
        else none
      | _ => none
    else none
  | _ => none

/-- Model of `datetime.fromisoformat` on the strings this store produces;
raising `ValueError`/`TypeError` is modelled by `none`. -/
def fromisoformat (s : String) : Option DateTime := parseChars s.data

/-- Model of `datetime.strftime("%m-%d %H:%M")` used by `get_summary`:
minute-precision rendering. -/
def strftimeMDHM (t : DateTime) : String :=
  String.mk (pad2 t.month ++ '-' :: pad2 t.day ++
             ' ' :: pad2 t.hour ++ ':' :: pad2 t.minute)

/-- One diary entry (`MemoryItem` dataclass).  `content` and `metadata`
are kept as `JValue` because `from_dict` performs no type validation on
them: whatever value sits in the record is stored. -/
structure MemoryItem where
  content : JValue
  timestamp : DateTime
  metadata : JValue

/-- Model of `MemoryItem.to_dict`: the serialized record, with the fixed
`memory_type` discriminant, the content, the ISO timestamp string, and
the metadata, in the source's field order. -/
def MemoryItem.to_dict (m : MemoryItem) : List (String × JValue) :=
  [("memory_type", JValue.str "diary"),
   ("content", m.content),
   ("timestamp", JValue.str (isoformat m.timestamp)),
   ("metadata", m.metadata)]

/-- Model of `MemoryItem.from_dict`: `data["content"]` and
`data["timestamp"]` raise `KeyError` when missing,
`datetime.fromisoformat` raises on a non-string or unparsable timestamp
(all modelled by `none`); a missing `metadata` defaults to the empty
dict via `data.get("metadata", {})`. -/
def MemoryItem.from_dict (data : List (String × JValue)) : Option MemoryItem :=
  match dictGet data "content" with
  | none => none
  | some c =>
    match dictGet data "timestamp" with
    | none => none
    | some (JValue.str ts) =>
      match fromisoformat ts with
      | none => none
      | some t => some ⟨c, t, (dictGet data "metadata").getD (JValue.dict [])⟩
    | some _ => none

/-- Timestamp-field deserialization as a single step: Python's
`datetime.fromisoformat(x)` fails on any non-string `x` (`TypeError`)
and on an unparsable string (`ValueError`). -/
def tsParse : JValue → Option DateTime
  | JValue.str s => fromisoformat s
  | _ => none

/-- Journal state: `_max_items` (a Python `int`, hence `Int`: the source
never validates positivity) and `_memories`. -/
structure ForumMemory where
  max_items : Int
  memories : List MemoryItem

/-- Python slice `l[i:]` with possibly negative `i`. -/
def pySliceFrom (l : List α) (i : Int) : List α :=
  if 0 ≤ i then l.drop i.toNat else l.drop ((l.length : Int) + i).toNat

/-- Python slice `l[:i]` with possibly negative `i`. -/
def pySliceTo (l : List α) (i : Int) : List α :=
  if 0 ≤ i then l.take i.toNat else l.take ((l.length : Int) + i).toNat

/-- The entry constructed by `add_diary`: string content, `metadata or {}`
(the parameter with `None` collapsed to the empty dict), timestamp
`datetime.now()` passed explicitly as `now`. -/
def diaryItem (content : String) (metadata : List (String × JValue))
    (now : DateTime) : MemoryItem :=
  ⟨JValue.str content, now, JValue.dict metadata⟩

/-- Model of `ForumMemory.add_diary`: append the new item, then trim via
`self._memories[-self._max_items:]` when the length exceeds
`_max_items`.  (`_save` is best-effort I/O with no effect on the
in-memory state and is not modelled.) -/
def ForumMemory.add_diary (fm : ForumMemory) (content : String)
    (metadata : List (String × JValue)) (now : DateTime) : ForumMemory :=
  let ms := fm.memories ++ [diaryItem content metadata now]
  let ms := if fm.max_items < (ms.length : Int)
            then pySliceFrom ms (-fm.max_items) else ms
  { fm with memories := ms }

/-- Model of `ForumMemory.get_diaries`: reverse (`[::-1]`), then slice to
`limit` only when `limit` is truthy (`if limit:`: `None` and `0` are both
falsy and skip the cap). -/
def ForumMemory.get_diaries (fm : ForumMemory) (limit : Option Int) :
    List MemoryItem :=
  let items := fm.memories.reverse
  match limit with
  | none => items
  | some n => if n = 0 then items else pySliceTo items n

/-- Fixed message `get_summary` returns for an empty journal. -/
def noDiaryMsg : String := "还没有写过论坛日记。"

/-- Header line of a non-empty summary. -/
def summaryHeader : String := "📔 我在 AstrBook 论坛的日记："

/-- Model of Python `str()` as applied to an entry's content in the
summary f-string.  `add_diary` only ever stores string content, for which
`str` is the identity; the other scalar cases follow Python; container
contents (reachable only through a hand-edited backing file and exercised
by no claim) are rendered shallowly rather than with Python's full
`repr` recursion. -/
def pyStr : JValue → String
  | JValue.str s => s
  | JValue.num n => toString n
  | JValue.bool b => if b then "True" else "False"
  | JValue.null => "None"
  | JValue.arr l => "[" ++ String.intercalate ", " (l.map fun _ => "…") ++ "]"
  | JValue.dict fs =>
      "\x7b" ++ String.intercalate ", " (fs.map fun kv => kv.1) ++ "\x7d"

/-- One rendered summary line:
`f"  📝 [{time_str}] {item.content}"` with `time_str` at minute
precision. -/
def summaryLine (it : MemoryItem) : String :=
  "  📝 [" ++ strftimeMDHM it.timestamp ++ "] " ++ pyStr it.content

/-- Model of `ForumMemory.get_summary` (default `limit` is 10 at every
call site): the fixed message when `get_diaries` gives nothing, otherwise
the header line followed by one line per returned entry, joined by
newlines. -/
def ForumMemory.get_summary (fm : ForumMemory) (limit : Int) : String :=
  let items := fm.get_diaries (some limit)
  if items.isEmpty then noDiaryMsg
  else String.intercalate "\n" (summaryHeader :: items.map summaryLine)

/-- Model of `ForumMemory.clear`: empty the in-memory list (the follow-up
`_save` does not change in-memory state). -/
def ForumMemory.clear (fm : ForumMemory) : ForumMemory :=
  { fm with memories := [] }

/-- Model of `ForumMemory.__len__`. -/
def ForumMemory.size (fm : ForumMemory) : Nat := fm.memories.length

/-- The backing file as observed by `_load`: missing, unreadable or
unparsable (I/O error or corrupt JSON, any `json.load` failure), or a
successfully parsed JSON value. -/
inductive FileState where
  | absent
  | unreadable
  | content (v : JValue)

/-- Python's `d.get("memory_type") == "diary"` test: true exactly for a
string-valued tag equal to `"diary"`. -/
def isDiaryTag : Option JValue → Bool
  | some (JValue.str s) => s == "diary"
  | _ => false

/-- Discriminant check on a whole record: a JSON object whose
`memory_type` tag is the string `"diary"`. -/
def isDiaryRec : JValue → Bool
  | JValue.dict fs => isDiaryTag (dictGet fs "memory_type")
  | _ => false

/-- Deserialization of one raw record (only objects can be
deserialized). -/
def recToItem : JValue → Option MemoryItem
  | JValue.dict fs => MemoryItem.from_dict fs
  | _ => none

/-- The list comprehension in `_load`:
`[MemoryItem.from_dict(d) for d in data if d.get("memory_type") == "diary"]`.
A non-object element raises (`.get` on a non-dict) and a failing
`from_dict` raises, either way aborting the whole comprehension
(`none`); the surrounding `except` then resets the journal. -/
def loadItems : List JValue → Option (List MemoryItem)
  | [] => some []
  | JValue.dict fields :: rest =>
    if isDiaryTag (dictGet fields "memory_type") then
      match MemoryItem.from_dict fields with
      | none => none
      | some item =>
        match loadItems rest with
        | none => none
        | some ms => some (item :: ms)
    else loadItems rest
  | _ :: _ => none

/-- Model of `ForumMemory._load`: a missing file returns with the state
untouched; any exception along the way (unreadable file, corrupt JSON,
non-array JSON, non-object element, failing `from_dict`) is caught and
resets `_memories` to empty; otherwise the filtered, deserialized records
replace `_memories`.  The function is total: no exception escapes. -/
def ForumMemory.load (fm : ForumMemory) (file : FileState) : ForumMemory :=
  match file with
  | FileState.absent => fm
  | FileState.unreadable => { fm with memories := [] }
  | FileState.content (JValue.arr items) =>
    match loadItems items with
    | some ms => { fm with memories := ms }
    | none => { fm with memories := [] }
  | FileState.content _ => { fm with memories := [] }

/-- Model of `ForumMemory.__init__` (storage-path resolution and
directory creation are I/O glue with no effect on the journal state):
record `max_items`, start empty, then `_load` from the backing file.
Note the source performs no validation of `max_items`. -/
def ForumMemory.init (max_items : Int) (file : FileState) : ForumMemory :=
  ForumMemory.load ⟨max_items, []⟩ file

/-- The last `n` elements of a list (what the Python trim slice
`l[-max_items:]` keeps for positive `max_items`). -/
def takeLast (n : Nat) (l : List α) : List α := l.drop (l.length - n)

/-- One `add_diary` call as folded by `appendAll`: the operation's
arguments (content, metadata, the `datetime.now()` value). -/
def opItem (op : String × List (String × JValue) × DateTime) : MemoryItem :=
  diaryItem op.1 op.2.1 op.2.2

/-- A sequence of `add_diary` calls applied in order. -/
def appendAll (fm : ForumMemory)
    (ops : List (String × List (String × JValue) × DateTime)) : ForumMemory :=
  ops.foldl (fun a op => a.add_diary op.1 op.2.1 op.2.2) fm


/-! ## Concrete values used by witnesses and counterexamples -/

/-- A concrete valid timestamp (no microsecond part). -/
def tA : DateTime := ⟨2024, 5, 17, 12, 30, 45, 0⟩

/-- A concrete valid timestamp with a microsecond part. -/
def tB : DateTime := ⟨2024, 5, 18, 9, 5, 0, 123456⟩

/-- Entry "a" as appended at `tA`. -/
def itemA : MemoryItem := diaryItem "a" [] tA

/-- Entry "b" as appended at `tB`. -/
def itemB : MemoryItem := diaryItem "b" [] tB

/-- The append sequence of the spec example: a, b, c into capacity 2. -/
def opsABC : List (String × List (String × JValue) × DateTime) :=
  [("a", [], tA), ("b", [], tA), ("c", [], tA)]

/-- A well-formed diary record without a `metadata` field. -/
def recA : List (String × JValue) :=
  [("memory_type", JValue.str "diary"), ("content", JValue.str "a"),
   ("timestamp", JValue.str "2024-05-17T12:30:45")]

/-- A well-formed diary record with metadata and a fractional timestamp. -/
def recB : List (String × JValue) :=
  [("memory_type", JValue.str "diary"), ("content", JValue.str "b"),
   ("timestamp", JValue.str "2024-05-18T09:05:00.123456"),
   ("metadata", JValue.dict [("k", JValue.num 1)])]

/-- A record of another kind (non-diary discriminant). -/
def recOther : List (String × JValue) :=
  [("memory_type", JValue.str "note"), ("content", JValue.str "x")]

/-- A backing-file array mixing diary and non-diary records. -/
def mixedRecords : List JValue :=
  [JValue.dict recA, JValue.dict recOther, JValue.dict recB]

/-! ## Helper lemmas -/

theorem isDigit_digitChar_mod (n : Nat) :
    (Nat.digitChar (n % 10)).isDigit = true := by
  have h : n % 10 < 10 := Nat.mod_lt _ (by norm_num)
  revert h
  generalize n % 10 = d
  revert d
  decide

theorem dval_digitChar_mod (n : Nat) :
    dval (Nat.digitChar (n % 10)) = n % 10 := by
  have h : n % 10 < 10 := Nat.mod_lt _ (by norm_num)
  revert h
  generalize n % 10 = d
  revert d
  decide

theorem takeLast_eq_reverse (n : Nat) (l : List α) :
    takeLast n l = (l.reverse.take n).reverse := by
  unfold takeLast
  rw [List.take_reverse, List.reverse_reverse]

theorem takeLast_of_le {n : Nat} {l : List α} (h : l.length ≤ n) :
    takeLast n l = l := by
  unfold takeLast
  rw [Nat.sub_eq_zero_of_le h, List.drop_zero]

theorem length_takeLast (n : Nat) (l : List α) :
    (takeLast n l).length = min n l.length := by
  unfold takeLast
  rw [List.length_drop]
  omega

theorem take_append_take (k : Nat) (a b : List α) :
    (a ++ b.take k).take k = (a ++ b).take k := by
  rw [List.take_append_eq_append_take, List.take_append_eq_append_take,
    List.take_take]
  congr 1
  rw [Nat.min_eq_left (Nat.sub_le k a.length)]

theorem takeLast_append_takeLast (k : Nat) (l1 l2 : List α) :
    takeLast k (takeLast k l1 ++ l2) = takeLast k (l1 ++ l2) := by
  rw [takeLast_eq_reverse k (takeLast k l1 ++ l2), takeLast_eq_reverse k (l1 ++ l2),
    takeLast_eq_reverse k l1]
  rw [List.reverse_append, List.reverse_reverse, List.reverse_append]
  rw [take_append_take]

theorem daysInMonth_le (y m : Nat) : daysInMonth y m ≤ 31 := by
  unfold daysInMonth
  split
  · split <;> omega
  · split <;> omega

theorem fromisoformat_isoformat (t : DateTime) (h : t.Valid) :
    fromisoformat (isoformat t) = some t := by
  obtain ⟨y, mo, dy, hr, mi, se, us⟩ := t
  simp only [DateTime.Valid, mkValid] at h
  split at h
  case isFalse => exact absurd h (by simp)
  case isTrue hcond =>
  show parseChars (isoChars ⟨y, mo, dy, hr, mi, se, us⟩) = some ⟨y, mo, dy, hr, mi, se, us⟩
  obtain ⟨h1, h2, h3, h4, h5, h6, h7, h8, h9, h10⟩ := hcond
  have h6b : dy ≤ 31 := le_trans h6 (daysInMonth_le y mo)
  by_cases hus : us = 0
  · subst hus
    simp only [isoChars, pad4, pad2, pad6, if_pos rfl, List.cons_append,
      List.nil_append, List.append_nil]
    simp only [parseChars, isDigit_digitChar_mod, dval_digitChar_mod,
      Bool.and_self, Bool.true_and, Bool.and_true, if_true]
    have ey : ((y / 1000 % 10 * 10 + y / 100 % 10) * 10 + y / 10 % 10) * 10 + y % 10 = y := by
      omega
    have emo : mo / 10 % 10 * 10 + mo % 10 = mo := by omega
    have edy : dy / 10 % 10 * 10 + dy % 10 = dy := by omega
    have ehr : hr / 10 % 10 * 10 + hr % 10 = hr := by omega
    have emi : mi / 10 % 10 * 10 + mi % 10 = mi := by omega
    have ese : se / 10 % 10 * 10 + se % 10 = se := by omega
    rw [ey, emo, edy, ehr, emi, ese]
    unfold mkValid
    rw [if_pos ⟨h1, h2, h3, h4, h5, h6, h7, h8, h9, by omega⟩]
  · simp only [isoChars, pad4, pad2, pad6, if_neg hus, List.cons_append,
      List.nil_append, List.append_nil]
    simp only [parseChars, isDigit_digitChar_mod, dval_digitChar_mod,
      Bool.and_self, Bool.true_and, Bool.and_true, if_true]
    have ey : ((y / 1000 % 10 * 10 + y / 100 % 10) * 10 + y / 10 % 10) * 10 + y % 10 = y := by
      omega
    have emo : mo / 10 % 10 * 10 + mo % 10 = mo := by omega
    have edy : dy / 10 % 10 * 10 + dy % 10 = dy := by omega
    have ehr : hr / 10 % 10 * 10 + hr % 10 = hr := by omega
    have emi : mi / 10 % 10 * 10 + mi % 10 = mi := by omega
    have ese : se / 10 % 10 * 10 + se % 10 = se := by omega
    have eus : ((((us / 100000 % 10 * 10 + us / 10000 % 10) * 10 + us / 1000 % 10) * 10
        + us / 100 % 10) * 10 + us / 10 % 10) * 10 + us % 10 = us := by omega
    rw [ey, emo, edy, ehr, emi, ese, eus]
    unfold mkValid
    rw [if_pos ⟨h1, h2, h3, h4, h5, h6, h7, h8, h9, h10⟩]

theorem add_diary_memories (fm : ForumMemory) (c : String)
    (md : List (String × JValue)) (now : DateTime) (h : 1 ≤ fm.max_items) :
    (fm.add_diary c md now).memories
      = takeLast fm.max_items.toNat (fm.memories ++ [diaryItem c md now]) := by
  unfold ForumMemory.add_diary
  dsimp only
  by_cases hlt : fm.max_items < ((fm.memories ++ [diaryItem c md now]).length : Int)
  · rw [if_pos hlt]
    unfold pySliceFrom takeLast
    rw [if_neg (by omega)]
    congr 1
    omega
  · rw [if_neg hlt]
    exact (takeLast_of_le (by omega)).symm

theorem appendAll_memories (ops : List (String × List (String × JValue) × DateTime))
    (fm : ForumMemory) (h1 : 1 ≤ fm.max_items)
    (h2 : fm.memories.length ≤ fm.max_items.toNat) :
    (appendAll fm ops).memories
      = takeLast fm.max_items.toNat (fm.memories ++ ops.map opItem) := by
  induction ops generalizing fm with
  | nil =>
    simp only [appendAll, List.foldl_nil, List.map_nil, List.append_nil]
    exact (takeLast_of_le h2).symm
  | cons op ops ih =>
    have hmax : (fm.add_diary op.1 op.2.1 op.2.2).max_items = fm.max_items := rfl
    have hmem := add_diary_memories fm op.1 op.2.1 op.2.2 h1
    have hlen : (fm.add_diary op.1 op.2.1 op.2.2).memories.length
        ≤ fm.max_items.toNat := by
      rw [hmem, length_takeLast]; omega
    have hrec := ih (fm.add_diary op.1 op.2.1 op.2.2)
      (by rw [hmax]; exact h1) (by rw [hmax]; exact hlen)
    show (appendAll (fm.add_diary op.1 op.2.1 op.2.2) ops).memories = _
    rw [hrec, hmax, hmem, takeLast_append_takeLast, List.map_cons]
    congr 1
    simp [List.append_assoc, opItem]

theorem get_diaries_none_eq (fm : ForumMemory) :
    fm.get_diaries none = fm.memories.reverse := rfl

theorem get_diaries_zero_eq (fm : ForumMemory) :
    fm.get_diaries (some 0) = fm.memories.reverse := rfl

theorem get_diaries_pos_eq (fm : ForumMemory) (n : Int) (h : 0 < n) :
    fm.get_diaries (some n) = fm.memories.reverse.take n.toNat := by
  unfold ForumMemory.get_diaries pySliceTo
  dsimp only
  rw [if_neg (by omega), if_pos (by omega)]

theorem get_diaries_neg_eq (fm : ForumMemory) (n : Int) (h : n < 0) :
    fm.get_diaries (some n)
      = fm.memories.reverse.take ((fm.memories.length : Int) + n).toNat := by
  unfold ForumMemory.get_diaries pySliceTo
  dsimp only
  rw [if_neg (by omega), if_neg (by omega), List.length_reverse]

theorem loadItems_eq_filterMap (items : List JValue)
    (hdict : ∀ r ∈ items, ∃ fs, r = JValue.dict fs)
    (hparse : ∀ r ∈ items, isDiaryRec r = true → ∃ it, recToItem r = some it) :
    loadItems items = some ((items.filter isDiaryRec).filterMap recToItem) := by
  induction items with
  | nil => rfl
  | cons r rest ih =>
    obtain ⟨fs, rfl⟩ := hdict r (List.mem_cons_self r rest)
    have ihr := ih (fun x hx => hdict x (List.mem_cons_of_mem _ hx))
      (fun x hx => hparse x (List.mem_cons_of_mem _ hx))
    by_cases htag : isDiaryTag (dictGet fs "memory_type") = true
    · obtain ⟨it, hit⟩ := hparse _ (List.mem_cons_self _ _)
        (by simpa [isDiaryRec] using htag)
      have hfd : MemoryItem.from_dict fs = some it := by
        simpa [recToItem] using hit
      simp only [loadItems, htag, if_true]
      rw [hfd, ihr]
      simp only [List.filter_cons, isDiaryRec, htag, if_true,
        List.filterMap_cons, recToItem, hfd]
    · have htagf : isDiaryTag (dictGet fs "memory_type") = false :=
        Bool.eq_false_iff.mpr htag
      simp only [loadItems, htagf, Bool.false_eq_true, if_false]
      rw [ihr]
      simp only [List.filter_cons, isDiaryRec, htagf, Bool.false_eq_true, if_false]

theorem loadItems_length (items : List JValue) (ms : List MemoryItem)
    (h : loadItems items = some ms) :
    ms.length = (items.filter isDiaryRec).length := by
  induction items generalizing ms with
  | nil =>
    simp only [loadItems, Option.some.injEq] at h
    subst h
    rfl
  | cons r rest ih =>
    cases r with
    | dict fs =>
      by_cases htag : isDiaryTag (dictGet fs "memory_type") = true
      · simp only [loadItems, htag, if_true] at h
        cases hfd : MemoryItem.from_dict fs with
        | none => rw [hfd] at h; exact absurd h (by simp)
        | some it =>
          rw [hfd] at h
          cases hrest : loadItems rest with
          | none => rw [hrest] at h; exact absurd h (by simp)
          | some ms2 =>
            rw [hrest] at h
            simp only [Option.some.injEq] at h
            subst h
            simp only [List.filter_cons, isDiaryRec, htag, if_true,
              List.length_cons, ih ms2 hrest]
      · have htagf : isDiaryTag (dictGet fs "memory_type") = false :=
          Bool.eq_false_iff.mpr htag
        simp only [loadItems, htagf, Bool.false_eq_true, if_false] at h
        simp only [List.filter_cons, isDiaryRec, htagf, Bool.false_eq_true,
          if_false, ih ms h]
    | str s => exact absurd h (by simp [loadItems])
    | num n => exact absurd h (by simp [loadItems])
    | bool b => exact absurd h (by simp [loadItems])
    | null => exact absurd h (by simp [loadItems])
    | arr l => exact absurd h (by simp [loadItems])

/-! ## Claim theorems -/

/-- C1: starting from an empty journal with positive capacity, after any
sequence of `N` appends with `N > max_items` the size equals `max_items`
and `get_diaries()` returns exactly the last `max_items` appended
entries, newest first. -/
theorem append_overflow_keeps_last (m : Int)
    (ops : List (String × List (String × JValue) × DateTime))
    (h1 : 1 ≤ m) (h2 : m < (ops.length : Int)) :
    ((appendAll (ForumMemory.init m FileState.absent) ops).size : Int) = m ∧
    (appendAll (ForumMemory.init m FileState.absent) ops).get_diaries none
      = ((ops.map opItem).drop (ops.length - m.toNat)).reverse := by
  have hmem := appendAll_memories ops ⟨m, []⟩ h1 (by simp)
  have hinit : ForumMemory.init m FileState.absent = ⟨m, []⟩ := rfl
  rw [hinit]
  constructor
  · show ((appendAll ⟨m, []⟩ ops).memories.length : Int) = m
    rw [hmem, length_takeLast]
    simp only [List.nil_append, List.length_map]
    omega
  · rw [get_diaries_none_eq, hmem]
    simp only [List.nil_append]
    unfold takeLast
    rw [List.length_map]

/-- C1 witness: the spec example itself: capacity 2, appending a, b, c
leaves size 2 and `get_diaries()` = the c entry then the b entry. -/
theorem append_overflow_keeps_last_witness :
    (((appendAll (ForumMemory.init 2 FileState.absent) opsABC).size : Int) = 2 ∧
      (appendAll (ForumMemory.init 2 FileState.absent) opsABC).get_diaries none
        = ((opsABC.map opItem).drop (opsABC.length - (2 : Int).toNat)).reverse) ∧
    (appendAll (ForumMemory.init 2 FileState.absent) opsABC).get_diaries none
      = [diaryItem "c" [] tA, diaryItem "b" [] tA] :=
  ⟨append_overflow_keeps_last 2 opsABC (by decide) (by decide), rfl⟩

/-- C10: from an over-capacity state (reachable by loading a backing file
with more than `max_items` diary records), one `add_diary` restores the
bound: the length becomes exactly `max_items` and the retained entries
are the newest `max_items` of the post-append sequence, including the
entry just added. -/
theorem add_diary_restores_capacity (fm : ForumMemory) (c : String)
    (md : List (String × JValue)) (now : DateTime)
    (h1 : 1 ≤ fm.max_items) (h2 : fm.max_items < (fm.memories.length : Int)) :
    ((fm.add_diary c md now).memories.length : Int) = fm.max_items ∧
    (fm.add_diary c md now).memories
      = takeLast fm.max_items.toNat (fm.memories ++ [diaryItem c md now]) ∧
    diaryItem c md now ∈ (fm.add_diary c md now).memories := by
  have hmem := add_diary_memories fm c md now h1
  refine ⟨?_, hmem, ?_⟩
  · rw [hmem, length_takeLast]
    simp only [List.length_append, List.length_cons, List.length_nil]
    omega
  · rw [hmem, takeLast_eq_reverse, List.reverse_append]
    simp only [List.reverse_cons, List.reverse_nil, List.nil_append,
      List.singleton_append]
    obtain ⟨j, hj⟩ : ∃ j, fm.max_items.toNat = j + 1 :=
      ⟨fm.max_items.toNat - 1, by omega⟩
    rw [hj, List.take_succ_cons, List.mem_reverse]
    exact List.mem_cons_self _ _

/-- C10 witness: an over-capacity journal (capacity 1 holding 2 entries)
is repaired by one append. -/
theorem add_diary_restores_capacity_witness :
    (((⟨1, [itemA, itemB]⟩ : ForumMemory).add_diary "c" [] tA).memories.length : Int)
        = (⟨1, [itemA, itemB]⟩ : ForumMemory).max_items ∧
    ((⟨1, [itemA, itemB]⟩ : ForumMemory).add_diary "c" [] tA).memories
      = takeLast (⟨1, [itemA, itemB]⟩ : ForumMemory).max_items.toNat
          ((⟨1, [itemA, itemB]⟩ : ForumMemory).memories ++ [diaryItem "c" [] tA]) ∧
    diaryItem "c" [] tA ∈ ((⟨1, [itemA, itemB]⟩ : ForumMemory).add_diary "c" [] tA).memories :=
  add_diary_restores_capacity ⟨1, [itemA, itemB]⟩ "c" [] tA (by decide) (by decide)

/-- C3: serialization round-trip: for every entry whose timestamp is a
valid datetime, deserializing the serialized record restores an entry
with identical content, timestamp (at the ISO format's microsecond
precision) and metadata. -/
theorem to_dict_from_dict_roundtrip (it : MemoryItem) (h : it.timestamp.Valid) :
    MemoryItem.from_dict it.to_dict = some it := by
  obtain ⟨c, ts, md⟩ := it
  have h2 : ts.Valid := h
  simp [MemoryItem.to_dict, MemoryItem.from_dict, dictGet,
    fromisoformat_isoformat ts h2]

/-- C3 witness: the round-trip at a concrete entry with metadata and a
fractional-second timestamp. -/
theorem to_dict_from_dict_roundtrip_witness :
    MemoryItem.from_dict
        (MemoryItem.to_dict ⟨JValue.str "hello", tB, JValue.dict [("k", JValue.num 1)]⟩)
      = some ⟨JValue.str "hello", tB, JValue.dict [("k", JValue.num 1)]⟩ :=
  to_dict_from_dict_roundtrip ⟨JValue.str "hello", tB, JValue.dict [("k", JValue.num 1)]⟩
    (by decide)

/-- C4: load never raises: a missing backing file leaves the journal
empty (not an error), and every failing load — unreadable or corrupt
file, JSON that is not an array, or an array whose processing fails (a
record failing deserialization) — resets the journal to empty and
returns normally (`ForumMemory.load` is a total function). -/
theorem load_error_resilience (m : Int) (v : JValue) (items : List JValue)
    (hv : ∀ its : List JValue, v ≠ JValue.arr its)
    (hitems : loadItems items = none) :
    (ForumMemory.init m FileState.absent).memories = [] ∧
    (ForumMemory.init m FileState.unreadable).memories = [] ∧
    (ForumMemory.init m (FileState.content v)).memories = [] ∧
    (ForumMemory.init m (FileState.content (JValue.arr items))).memories = [] := by
  refine ⟨rfl, rfl, ?_, ?_⟩
  · unfold ForumMemory.init ForumMemory.load
    cases v with
    | arr l => exact absurd rfl (hv l)
    | str s => rfl
    | num n => rfl
    | bool b => rfl
    | null => rfl
    | dict fs => rfl
  · show (ForumMemory.load ⟨m, []⟩ (FileState.content (JValue.arr items))).memories = []
    unfold ForumMemory.load
    dsimp only
    rw [hitems]

/-- C4 witness: at capacity 7, with non-array JSON (`null`) and with an
array holding a non-record element. -/
theorem load_error_resilience_witness :
    (ForumMemory.init 7 FileState.absent).memories = [] ∧
    (ForumMemory.init 7 FileState.unreadable).memories = [] ∧
    (ForumMemory.init 7 (FileState.content JValue.null)).memories = [] ∧
    (ForumMemory.init 7 (FileState.content (JValue.arr [JValue.null]))).memories = [] :=
  load_error_resilience 7 JValue.null [JValue.null]
    (fun _ h => JValue.noConfusion h) rfl

/-- C6: deserialization of a record fails exactly when the `content`
field is missing, the `timestamp` field is missing, or the timestamp
value cannot be parsed as a datetime (a non-string timestamp cannot be
parsed); and a record whose only missing field is `metadata`
deserializes successfully with empty metadata. -/
theorem from_dict_failure_iff (data : List (String × JValue)) (c : JValue)
    (t : DateTime) (s : String) :
    (MemoryItem.from_dict data = none ↔
      dictGet data "content" = none ∨ dictGet data "timestamp" = none ∨
      (∃ v, dictGet data "timestamp" = some v ∧ tsParse v = none)) ∧
    (dictGet data "content" = some c →
      dictGet data "timestamp" = some (JValue.str s) →
      fromisoformat s = some t →
      dictGet data "metadata" = none →
      MemoryItem.from_dict data = some ⟨c, t, JValue.dict []⟩) := by
  constructor
  · unfold MemoryItem.from_dict
    cases hc0 : dictGet data "content" with
    | none => simp [hc0]
    | some c0 =>
      cases ht0 : dictGet data "timestamp" with
      | none => simp [ht0]
      | some v =>
        cases v with
        | str s0 =>
          cases hp0 : fromisoformat s0 with
          | none => simp [ht0, hp0, tsParse]
          | some t0 => simp [ht0, hp0, tsParse]
        | num n => simp [ht0, tsParse]
        | bool b => simp [ht0, tsParse]
        | null => simp [ht0, tsParse]
        | arr l => simp [ht0, tsParse]
        | dict fs => simp [ht0, tsParse]
  · intro hc ht hp hmd
    unfold MemoryItem.from_dict
    rw [hc, ht]
    dsimp only
    rw [hp, hmd]
    rfl

/-- C6 witness: a record with `content`, a parseable `timestamp` and no
`metadata` field deserializes to the entry with empty metadata. -/
theorem from_dict_failure_iff_witness :
    MemoryItem.from_dict recA = some ⟨JValue.str "a", tA, JValue.dict []⟩ :=
  (from_dict_failure_iff recA (JValue.str "a") tA "2024-05-17T12:30:45").2
    rfl rfl rfl rfl

/-- C7: a well-formed backing file (an array of record objects whose
diary-tagged members all deserialize) containing a mixture of diary-kind
records and records of other kinds loads exactly the diary-kind records,
in their original relative order, silently dropping the rest. -/
theorem load_filters_diary_records (m : Int) (records : List JValue)
    (hdict : ∀ r ∈ records, ∃ fs, r = JValue.dict fs)
    (hparse : ∀ r ∈ records, isDiaryRec r = true → ∃ it, recToItem r = some it) :
    (ForumMemory.init m (FileState.content (JValue.arr records))).memories
      = (records.filter isDiaryRec).filterMap recToItem := by
  show (ForumMemory.load ⟨m, []⟩ (FileState.content (JValue.arr records))).memories = _
  unfold ForumMemory.load
  dsimp only
  rw [loadItems_eq_filterMap records hdict hparse]

/-- C7 witness: a file holding diary record A, a non-diary record, then
diary record B loads exactly the two diary entries, in order. -/
theorem load_filters_diary_records_witness :
    (ForumMemory.init 5 (FileState.content (JValue.arr mixedRecords))).memories
      = (mixedRecords.filter isDiaryRec).filterMap recToItem ∧
    (mixedRecords.filter isDiaryRec).filterMap recToItem
      = [⟨JValue.str "a", tA, JValue.dict []⟩,
         ⟨JValue.str "b", tB, JValue.dict [("k", JValue.num 1)]⟩] :=
  ⟨load_filters_diary_records 5 mixedRecords
    (by
      intro r hr
      simp only [mixedRecords, List.mem_cons, List.not_mem_nil, or_false] at hr
      rcases hr with rfl | rfl | rfl
      · exact ⟨recA, rfl⟩
      · exact ⟨recOther, rfl⟩
      · exact ⟨recB, rfl⟩)
    (by
      intro r hr htag
      simp only [mixedRecords, List.mem_cons, List.not_mem_nil, or_false] at hr
      rcases hr with rfl | rfl | rfl
      · exact ⟨⟨JValue.str "a", tA, JValue.dict []⟩, rfl⟩
      · exact absurd htag (by decide)
      · exact ⟨⟨JValue.str "b", tB, JValue.dict [("k", JValue.num 1)]⟩, rfl⟩),
   rfl⟩

/-- C2 counterexample: constructing with capacity 1 over a well-formed
backing file holding two diary records yields a journal with 2 entries:
`entries.length ≤ maxItems` does not hold after construction, because
`_load` never trims. -/
theorem capacity_invariant_counterexample :
    ((ForumMemory.init 1 (FileState.content
        (JValue.arr [JValue.dict recA, JValue.dict recB]))).size : Int) = 2 ∧
    ¬ (((ForumMemory.init 1 (FileState.content
        (JValue.arr [JValue.dict recA, JValue.dict recB]))).size : Int) ≤ 1) :=
  ⟨by decide, by decide⟩

/-- C2 (amended): for positive capacity, `entries.length ≤ maxItems`
holds after every `add_diary` and after `clear`, and holds after
construction provided the backing file contains at most `maxItems`
diary records (it is absent, unreadable, or an array with at most
`maxItems` diary-tagged members); a file with more diary records
violates the bound until the next append. -/
theorem capacity_invariant_amended (fm : ForumMemory) (c : String)
    (md : List (String × JValue)) (now : DateTime) (m : Int)
    (items : List JValue) (h1 : 1 ≤ fm.max_items) (hm : 1 ≤ m)
    (hcount : ((items.filter isDiaryRec).length : Int) ≤ m) :
    (((fm.add_diary c md now).memories.length : Int) ≤ fm.max_items) ∧
    ((fm.clear.memories.length : Int) ≤ fm.max_items) ∧
    (((ForumMemory.init m FileState.absent).memories.length : Int) ≤ m) ∧
    (((ForumMemory.init m FileState.unreadable).memories.length : Int) ≤ m) ∧
    (((ForumMemory.init m (FileState.content
        (JValue.arr items))).memories.length : Int) ≤ m) := by
  refine ⟨?_, ?_, ?_, ?_, ?_⟩
  · rw [add_diary_memories fm c md now h1, length_takeLast]
    omega
  · show ((0 : Nat) : Int) ≤ fm.max_items
    omega
  · show (([] : List MemoryItem).length : Int) ≤ m
    simp only [List.length_nil]
    omega
  · show (([] : List MemoryItem).length : Int) ≤ m
    simp only [List.length_nil]
    omega
  · show ((ForumMemory.load ⟨m, []⟩ (FileState.content
        (JValue.arr items))).memories.length : Int) ≤ m
    unfold ForumMemory.load
    dsimp only
    cases hload : loadItems items with
    | none =>
      simp only [List.length_nil]
      omega
    | some ms =>
      have := loadItems_length items ms hload
      simp only []
      omega

/-- C2 (amended) witness: capacity 2 journal with one entry, append; and
construction at capacity 1 from a file with exactly one diary record. -/
theorem capacity_invariant_amended_witness :
    ((((⟨2, [itemA]⟩ : ForumMemory).add_diary "x" [] tA).memories.length : Int)
        ≤ (⟨2, [itemA]⟩ : ForumMemory).max_items) ∧
    (((⟨2, [itemA]⟩ : ForumMemory).clear.memories.length : Int)
        ≤ (⟨2, [itemA]⟩ : ForumMemory).max_items) ∧
    (((ForumMemory.init 1 FileState.absent).memories.length : Int) ≤ 1) ∧
    (((ForumMemory.init 1 FileState.unreadable).memories.length : Int) ≤ 1) ∧
    (((ForumMemory.init 1 (FileState.content
        (JValue.arr [JValue.dict recA]))).memories.length : Int) ≤ 1) :=
  capacity_invariant_amended ⟨2, [itemA]⟩ "x" [] tA 1 [JValue.dict recA]
    (by decide) (by decide) (by decide)

/-- C5 counterexample: construction with non-positive capacity does not
fail: `__init__` validates nothing, the journal is produced (capacity 0
stored as-is, empty entries), and it even accepts appends. -/
theorem init_nonpositive_counterexample :
    ForumMemory.init 0 FileState.absent = ⟨0, []⟩ ∧
    ((ForumMemory.init 0 FileState.absent).add_diary "x" [] tA).memories
      = [diaryItem "x" [] tA] :=
  ⟨rfl, rfl⟩

/-- C5 (amended): construction with non-positive `maxItems` succeeds and
propagates no error: the capacity is stored unvalidated and the loaded
journal is returned; moreover with `maxItems = 0` the trim slice
`[-0:]` is a no-op, so every append simply grows the journal (no bound
is ever enforced). -/
theorem init_nonpositive_amended (m : Int) (f : FileState) (fm : ForumMemory)
    (c : String) (md : List (String × JValue)) (now : DateTime)
    (_hm : m ≤ 0) (hfm : fm.max_items = 0) :
    (ForumMemory.init m f).max_items = m ∧
    (fm.add_diary c md now).memories = fm.memories ++ [diaryItem c md now] := by
  constructor
  · show (ForumMemory.load ⟨m, []⟩ f).max_items = m
    unfold ForumMemory.load
    cases f with
    | absent => rfl
    | unreadable => rfl
    | content v =>
      cases v with
      | arr l =>
        dsimp only
        cases loadItems l <;> rfl
      | str s => rfl
      | num n => rfl
      | bool b => rfl
      | null => rfl
      | dict fs => rfl
  · unfold ForumMemory.add_diary pySliceFrom
    dsimp only
    rw [hfm]
    simp

/-- C5 (amended) witness: capacity -3 construction from an absent file,
and an append on a capacity-0 journal. -/
theorem init_nonpositive_amended_witness :
    (ForumMemory.init (-3) FileState.absent).max_items = -3 ∧
    ((⟨0, [itemA]⟩ : ForumMemory).add_diary "x" [] tA).memories
      = (⟨0, [itemA]⟩ : ForumMemory).memories ++ [diaryItem "x" [] tA] :=
  init_nonpositive_amended (-3) FileState.absent ⟨0, [itemA]⟩ "x" [] tA
    (by decide) (by decide)

/-- C8 counterexample: with the supplied limit value 0 (falsy in
Python), `get_diaries` returns the whole reversed journal, not the first
0 elements of the reversal. -/
theorem get_diaries_zero_counterexample :
    ForumMemory.get_diaries ⟨50, [itemA]⟩ (some 0)
      ≠ List.take ((0 : Int).toNat)
          ((⟨50, [itemA]⟩ : ForumMemory).memories.reverse) := by
  have h1 : ForumMemory.get_diaries ⟨50, [itemA]⟩ (some 0) = [itemA] := rfl
  have h2 : List.take ((0 : Int).toNat)
      ((⟨50, [itemA]⟩ : ForumMemory).memories.reverse) = [] := rfl
  rw [h1, h2]
  exact List.cons_ne_nil _ _

/-- C8 (amended): `get_diaries` returns the reversal of the entry
sequence (append order reversed, no timestamp sort; the model is pure,
so the journal is not mutated); a positive limit caps it to the first
`limit` reversed entries, while limit 0 — exactly like omitting the
limit — returns the whole reversal (Python falsiness), and a negative
limit follows Python slice semantics (`items[:limit]`), dropping
`-limit` entries from the end. -/
theorem get_diaries_amended (fm : ForumMemory) (n : Int) :
    fm.get_diaries none = fm.memories.reverse ∧
    fm.get_diaries (some 0) = fm.memories.reverse ∧
    (0 < n → fm.get_diaries (some n) = fm.memories.reverse.take n.toNat) ∧
    (n < 0 → fm.get_diaries (some n)
      = fm.memories.reverse.take ((fm.memories.length : Int) + n).toNat) :=
  ⟨get_diaries_none_eq fm, get_diaries_zero_eq fm,
   fun h => get_diaries_pos_eq fm n h, fun h => get_diaries_neg_eq fm n h⟩

/-- C8 (amended) witness: journal with entries a then b: no limit gives
[b, a]; limit 1 gives [b]; limit -1 gives [b]. -/
theorem get_diaries_amended_witness :
    ForumMemory.get_diaries ⟨50, [itemA, itemB]⟩ none = [itemB, itemA] ∧
    ForumMemory.get_diaries ⟨50, [itemA, itemB]⟩ (some 1) = [itemB] ∧
    ForumMemory.get_diaries ⟨50, [itemA, itemB]⟩ (some (-1)) = [itemB] :=
  ⟨(get_diaries_amended ⟨50, [itemA, itemB]⟩ 1).1.trans rfl,
   ((get_diaries_amended ⟨50, [itemA, itemB]⟩ 1).2.2.1 (by norm_num)).trans rfl,
   ((get_diaries_amended ⟨50, [itemA, itemB]⟩ (-1)).2.2.2 (by norm_num)).trans rfl⟩

/-- C9 counterexample: with limit 0 on a journal holding two entries,
`get_summary` renders a header plus one line for every entry (the falsy
limit disables the cap), so the block does not consist of the header
followed by at most 0 entry lines: that would force it to equal the bare
header, and it does not. -/
theorem get_summary_zero_counterexample :
    ForumMemory.get_summary ⟨50, [itemA, itemB]⟩ 0
      = String.intercalate "\n"
          (summaryHeader :: [summaryLine itemB, summaryLine itemA]) ∧
    ForumMemory.get_summary ⟨50, [itemA, itemB]⟩ 0 ≠ summaryHeader :=
  ⟨rfl, by decide⟩

/-- C9 (amended): for every positive limit (including the default 10),
`get_summary` returns the fixed non-empty "no diary yet" message exactly
when the journal is empty, never an empty string; otherwise it returns
the header line followed by one line per rendered entry — the first
`limit` entries of the reversed (newest-first) sequence, each line
holding the entry's minute-precision timestamp and its content.  (Limit
0 disables the cap — see the counterexample.) -/
theorem get_summary_amended (fm : ForumMemory) (limit : Int) (h : 1 ≤ limit) :
    (fm.memories = [] → fm.get_summary limit = noDiaryMsg ∧ noDiaryMsg ≠ "") ∧
    (fm.memories ≠ [] →
      fm.get_summary limit
        = String.intercalate "\n"
            (summaryHeader ::
              (fm.memories.reverse.take limit.toNat).map summaryLine) ∧
      (fm.memories.reverse.take limit.toNat).length ≤ limit.toNat) := by
  have hgd : fm.get_diaries (some limit) = fm.memories.reverse.take limit.toNat :=
    get_diaries_pos_eq fm limit (by omega)
  constructor
  · intro he
    refine ⟨?_, by decide⟩
    unfold ForumMemory.get_summary
    rw [hgd, he]
    simp
  · intro hne
    refine ⟨?_, by rw [List.length_take]; exact Nat.min_le_left _ _⟩
    have hnil : fm.memories.reverse.take limit.toNat ≠ [] := by
      intro hn
      have hlen := congrArg List.length hn
      rw [List.length_take, List.length_reverse, List.length_nil] at hlen
      have hme : fm.memories.length ≠ 0 :=
        fun h0 => hne (List.length_eq_zero.mp h0)
      omega
    unfold ForumMemory.get_summary
    rw [hgd, if_neg (fun hh => hnil (List.isEmpty_iff.mp hh))]

/-- C9 (amended) witness: at the default limit 10, the empty journal
yields the fixed message, and a one-entry journal yields the header plus
that entry's line. -/
theorem get_summary_amended_witness :
    ForumMemory.get_summary ⟨50, []⟩ 10 = noDiaryMsg ∧
    ForumMemory.get_summary ⟨50, [itemA]⟩ 10
      = String.intercalate "\n" (summaryHeader :: [summaryLine itemA]) := by
  constructor
  · exact ((get_summary_amended ⟨50, []⟩ 10 (by norm_num)).1 rfl).1
  · have h := ((get_summary_amended ⟨50, [itemA]⟩ 10 (by norm_num)).2
      (List.cons_ne_nil _ _)).1
    rw [h]
    rfl
